import Mathlib

/-!
Verification development for `stdlibs/fetch.py`, a codegen utility that
regenerates static tables of standard-library module names per release of a
language runtime.  Python strings are modelled as Lean `String`/`List Char`,
Python sets as `Finset String`, fallible steps as `Except`.  Each definition
is a direct translation of the corresponding place in `fetch.py`; the regex
patterns are translated into explicit character-level matchers mirroring the
backtracking behaviour of the Python `re` module on those concrete patterns.
-/

/-- Whitespace test matching Python's `str.strip` / regex `\s` character set. -/
def pyIsSpace (c : Char) : Bool :=
  c = ' ' ∨ c = '\t' ∨ c = '\n' ∨ c = '\r' ∨ c = '\x0b' ∨ c = '\x0c'

/-- Python `str.strip()` on a character list: drop whitespace from both ends. -/
def pyStrip (l : List Char) : List Char :=
  ((l.dropWhile pyIsSpace).reverse.dropWhile pyIsSpace).reverse

/-- Python `str.strip()` on a `String`. -/
def pyStripStr (s : String) : String :=
  String.mk (pyStrip s.toList)

/-- Python `str.strip('"')`: drop double-quote characters from both ends. -/
def pyStripQuote (s : String) : String :=
  String.mk (((s.toList.dropWhile (· = '"')).reverse.dropWhile (· = '"')).reverse)

/-- Fueled worker for Python `str.split(sep)` with non-empty separator
`s :: ss`: split at every non-overlapping occurrence, scanning left to right.
Each step consumes at least one character, so `l.length` fuel is exact. -/
def pySplitAux (s : Char) (ss : List Char) : Nat → List Char → List (List Char)
  | _, [] => [[]]
  | 0, l => [l]
  | fuel + 1, c :: cs =>
    if (s :: ss).isPrefixOf (c :: cs) then
      [] :: pySplitAux s ss fuel (cs.drop ss.length)
    else
      match pySplitAux s ss fuel cs with
      | [] => [[c]]
      | h :: t => (c :: h) :: t

/-- Python `str.split(sep)` for a non-empty separator `s :: ss`, on character
lists. -/
def pySplit (s : Char) (ss : List Char) (l : List Char) : List (List Char) :=
  pySplitAux s ss l.length l

/-- Python `str.split(sep)` on `String`s; the separators used by `fetch.py`
are all non-empty. -/
def pySplitStr (sep s : String) : List String :=
  match sep.toList with
  | [] => [s]
  | c :: cc => (pySplit c cc s.toList).map String.mk

/-- Python `str.startswith` for a single candidate. -/
def pyStartsWith (s pre : String) : Bool :=
  pre.toList.isPrefixOf s.toList

/-- Python `str.endswith`. -/
def pyEndsWith (s suf : String) : Bool :=
  suf.toList.isSuffixOf s.toList

/-- Digits accumulator for `int(x)` on a non-negative decimal numeral. -/
def pyToNatAux : List Char → Nat → Option Nat
  | [], acc => some acc
  | c :: rest, acc =>
    if c.isDigit then pyToNatAux rest (acc * 10 + (c.toNat - 48)) else none

/-- Python `int(x)` restricted to plain decimal numerals; `none` models the
`ValueError` on anything else (in particular the empty string). -/
def pyToNat? (l : List Char) : Option Nat :=
  match l with
  | [] => none
  | _ => pyToNatAux l 0

/-- Lexicographic-by-code-point `<` on character lists, the comparison Python
uses for strings. -/
def charListLt : List Char → List Char → Bool
  | [], [] => false
  | [], _ :: _ => true
  | _ :: _, [] => false
  | a :: as2, b :: bs =>
    if a.toNat < b.toNat then true else if a = b then charListLt as2 bs else false

/-- Python `<` on strings. -/
def pyStrLt (a b : String) : Bool :=
  charListLt a.toList b.toList

/-- Concatenation of a list of lists (used instead of Python's repeated
`names.append` inside nested loops). -/
def concatAll (l : List (List String)) : List String :=
  l.foldr (· ++ ·) []

/-- Index (from the end) of the last dot of a name, as used by
`pathlib.PurePath.with_suffix("")`: the suffix is non-empty only when the last
dot is neither the first nor the last character.  Models `p.with_suffix("").name`. -/
def withSuffixEmpty (n : String) : String :=
  let cs := n.toList
  match cs.reverse.findIdx? (· = '.') with
  | none => n
  | some rk =>
    if 0 < rk ∧ rk + 1 < cs.length then String.mk (cs.take (cs.length - 1 - rk)) else n

/-- Python `s.rsplit(".", 1)[0]`: everything before the last dot, or the whole
string when there is no dot. -/
def rsplitBeforeLastDot (s : String) : String :=
  let cs := s.toList
  match cs.reverse.findIdx? (· = '.') with
  | none => s
  | some rk => String.mk (cs.take (cs.length - 1 - rk))

/-- Python `tuple(int(x) for x in version.split("."))`; `none` models the
`ValueError` that `int` raises on a non-numeric component. -/
def versionTuple (v : String) : Option (List Nat) :=
  (pySplitStr "." v).mapM (fun x => pyToNat? x.toList)

/-- Lexicographic `<` on Python tuples (here lists of numbers): a strict prefix
is smaller, otherwise the first differing component decides. -/
def pyTupleLt : List Nat → List Nat → Bool
  | [], [] => false
  | [], _ :: _ => true
  | _ :: _, [] => false
  | a :: as2, b :: bs => if a < b then true else if a = b then pyTupleLt as2 bs else false

/-- The `RELEASES` table of `fetch.py`: version label to source-archive URL,
in the insertion (iteration) order of the Python dict. -/
def RELEASES : List (String × String) :=
  [("2.3", "https://www.python.org/ftp/python/2.3.7/Python-2.3.7.tgz"),
   ("2.4", "https://www.python.org/ftp/python/2.4.6/Python-2.4.6.tgz"),
   ("2.5", "https://www.python.org/ftp/python/2.5.6/Python-2.5.6.tgz"),
   ("2.6", "https://www.python.org/ftp/python/2.6.9/Python-2.6.9.tgz"),
   ("2.7", "https://www.python.org/ftp/python/2.7.18/Python-2.7.18.tgz"),
   ("3.0", "https://www.python.org/ftp/python/3.0.1/Python-3.0.1.tgz"),
   ("3.1", "https://www.python.org/ftp/python/3.1.5/Python-3.1.5.tgz"),
   ("3.2", "https://www.python.org/ftp/python/3.2.6/Python-3.2.6.tgz"),
   ("3.3", "https://www.python.org/ftp/python/3.3.7/Python-3.3.7.tgz"),
   ("3.4", "https://www.python.org/ftp/python/3.4.10/Python-3.4.10.tgz"),
   ("3.5", "https://www.python.org/ftp/python/3.5.10/Python-3.5.10.tgz"),
   ("3.6", "https://www.python.org/ftp/python/3.6.13/Python-3.6.13.tgz"),
   ("3.7", "https://www.python.org/ftp/python/3.7.10/Python-3.7.10.tgz"),
   ("3.8", "https://www.python.org/ftp/python/3.8.8/Python-3.8.8.tgz"),
   ("3.9", "https://www.python.org/ftp/python/3.9.2/Python-3.9.2.tgz"),
   ("3.10", "https://www.python.org/ftp/python/3.10.0/Python-3.10.0a6.tgz")]

/-- The version labels of `RELEASES`, in iteration order. -/
def releaseVersions : List String := RELEASES.map Prod.fst

/-! ## The libcst structural tree and the ExtensionVisitor -/

/-- Shallow model of the libcst nodes that `ExtensionVisitor` inspects.
`simpleString` carries the raw source token (quotes included); `other` stands
for any other node kind, with its children. -/
inductive Node where
  | simpleString (raw : String)
  | name (id : String)
  | listNode (elements : List Node)
  | call (func : Node) (args : List Node)
  | assign (targets : List Node) (value : Node)
  | other (children : List Node)

/-- Translation of one backslash escape, as in Python string-literal
evaluation: unknown escapes keep the backslash. -/
def unescapeChars : List Char → List Char
  | '\\' :: c :: rest =>
    (if c = 'n' then ['\n']
     else if c = 't' then ['\t']
     else if c = 'r' then ['\r']
     else if c = '\\' then ['\\']
     else if c = '"' then ['"']
     else if c = Char.ofNat 39 then [Char.ofNat 39]
     else ['\\', c]) ++ unescapeChars rest
  | c :: rest => c :: unescapeChars rest
  | [] => []

/-- Model of `cst.SimpleString.evaluated_value` for plain quoted strings: strip
one layer of matching quotes and evaluate backslash escapes. -/
def evaluatedValue (raw : String) : String :=
  match raw.toList with
  | [] => raw
  | q :: rest =>
    if (q = '"' ∨ q = Char.ofNat 39) ∧ rest ≠ [] ∧ rest.getLast? = some q then
      String.mk (unescapeChars rest.dropLast)
    else raw

/-- The matcher of `ExtensionVisitor.visit_Call`: a call whose callee is the
name `Extension` or `addMacExtension` and whose first argument is a simple
string records that string's evaluated value; anything else records nothing. -/
def visitCallNames : Node → List String
  | Node.call (Node.name f) (arg1 :: _) =>
    if f = "Extension" ∨ f = "addMacExtension" then
      match arg1 with
      | Node.simpleString raw => [evaluatedValue raw]
      | _ => []
    else []
  | _ => []

/-- The matcher of `ExtensionVisitor.visit_Assign`: an assignment whose sole
target is the name `CARBON_EXTS` and whose value is a literal list records the
evaluated value of every simple-string element; anything else records nothing. -/
def visitAssignNames : Node → List String
  | Node.assign [Node.name t] (Node.listNode elems) =>
    if t = "CARBON_EXTS" then
      elems.filterMap (fun e =>
        match e with
        | Node.simpleString raw => some (evaluatedValue raw)
        | _ => none)
    else []
  | _ => []

mutual

/-- Preorder traversal of the tree by `ExtensionVisitor`, accumulating the
names recorded by `visit_Call` and `visit_Assign` at every node. -/
def collectNode : Node → List String
  | Node.simpleString _ => []
  | Node.name _ => []
  | Node.listNode es => collectList es
  | Node.call f args =>
    visitCallNames (Node.call f args) ++ collectNode f ++ collectList args
  | Node.assign ts v =>
    visitAssignNames (Node.assign ts v) ++ collectList ts ++ collectNode v
  | Node.other cs => collectList cs

/-- Traversal of a list of sibling nodes, in document order. -/
def collectList : List Node → List String
  | [] => []
  | n :: ns => collectNode n ++ collectList ns

end

/-! ## Regex scanners for the native-source and inittab patterns -/

/-- Generic model of `re.search`: try the matcher at every start position from
left to right (including the empty suffix) and return the first success. -/
def searchFirst {α : Type} (f : List Char → Option α) : List Char → Option α
  | [] => f []
  | c :: cs =>
    match f (c :: cs) with
    | some r => some r
    | none => searchFirst f cs

/-- Literal `" = {"` appearing in `MODULE_DEF_RE` after the lazy gap. -/
def eqBraceMark : List Char := " = \x7b".toList

/-- Tail of `MODULE_DEF_RE` after the opening brace:
`\s*[^,]*,\s*([^,}]+)[,}]`.  The leading `\s*[^,]*` runs to the first comma;
after it the capture group is the maximal run of characters that are neither
comma nor closing brace, and when that run is empty the greedy `\s*` gives one
whitespace character back to the group. -/
def mdTail (cs : List Char) : Option (List Char) :=
  let a := cs.takeWhile (· ≠ ',')
  match cs.drop a.length with
  | ',' :: rest =>
    let w := rest.takeWhile pyIsSpace
    let r2 := rest.drop w.length
    let g := r2.takeWhile (fun c => c ≠ ',' ∧ c ≠ '\x7d')
    match r2.drop g.length with
    | _ :: _ =>
      if g ≠ [] then some g
      else
        match w.getLast? with
        | some wc => some [wc]
        | none => none
    | [] => none
  | _ => none

/-- Lazy gap of `MODULE_DEF_RE`: `.*? = \{` followed by `mdTail`, where `.`
does not cross a newline and on a failing tail the gap keeps extending. -/
def mdScan : List Char → Option (List Char)
  | [] => none
  | c :: r =>
    match (if eqBraceMark.isPrefixOf (c :: r) then mdTail ((c :: r).drop 4) else none) with
    | some g => some g
    | none => if c = '\n' then none else mdScan r

/-- Literal head of `MODULE_DEF_RE`. -/
def pyModuleDefLit : List Char := "PyModuleDef ".toList

/-- Attempt `MODULE_DEF_RE` anchored at the current position; returns the
capture group. -/
def matchModuleDefAt (cs : List Char) : Option (List Char) :=
  if pyModuleDefLit.isPrefixOf cs then mdScan (cs.drop pyModuleDefLit.length)
  else none

/-- Tail of `PY2_INITMODULE_RE` after the parenthesis, at a given offset into
the whitespace run: the lookahead `(?!\))` plus the lazy group `(.*?),`. -/
def py2TryAt (r : List Char) : Option (List Char) :=
  match r with
  | ')' :: _ => none
  | _ =>
    let g := r.takeWhile (fun c => c ≠ ',' ∧ c ≠ '\n')
    match r.drop g.length with
    | ',' :: _ => some g
    | _ => none

/-- Backtracking of the greedy `\s*` in `PY2_INITMODULE_RE`: try the largest
whitespace prefix first and give characters back one at a time. -/
def py2TailGo (cs : List Char) : Nat → Option (List Char)
  | 0 => py2TryAt cs
  | k + 1 =>
    match py2TryAt (cs.drop (k + 1)) with
    | some g => some g
    | none => py2TailGo cs k

/-- Literal of `PY2_INITMODULE_RE` after the leading wildcard. -/
def py2InitLit : List Char := "Py_InitModule".toList

/-- Attempt `PY2_INITMODULE_RE` (`.Py_InitModule\d?\(\s*(?!\))(.*?),`) anchored
at the current position; returns the capture group. -/
def matchPy2At (cs : List Char) : Option (List Char) :=
  match cs with
  | [] => none
  | c :: rest =>
    if c ≠ '\n' ∧ py2InitLit.isPrefixOf rest then
      let r2 := rest.drop py2InitLit.length
      let afterParen : Option (List Char) :=
        match r2 with
        | [] => none
        | d :: r =>
          if d.isDigit then
            match r with
            | '(' :: rb => some rb
            | _ => none
          else if d = '(' then some r
          else none
      match afterParen with
      | none => none
      | some r3 => py2TailGo r3 ((r3.takeWhile pyIsSpace).length)
    else none

/-- Scan for the closing `*/` of a C comment on the same line, as the lazy
`.*?\*/` of `MULTILINE_COMMENT_RE` requires. -/
def findCommentClose : List Char → Option (List Char)
  | '*' :: '/' :: r => some r
  | '\n' :: _ => none
  | _ :: r => findCommentClose r
  | [] => none

/-- Fueled worker for `MULTILINE_COMMENT_RE.sub("", ...)`: remove every
single-line `/* ... */` comment. -/
def commentSubAux : Nat → List Char → List Char
  | 0, l => l
  | _ + 1, [] => []
  | fuel + 1, '/' :: '*' :: rest =>
    (match findCommentClose rest with
     | some r => commentSubAux fuel r
     | none => '/' :: commentSubAux fuel ('*' :: rest))
  | fuel + 1, c :: rest => c :: commentSubAux fuel rest

/-- Python `MULTILINE_COMMENT_RE.sub("", s)`. -/
def commentSub (l : List Char) : List Char := commentSubAux l.length l

/-- Single attempt of `INITTAB_RE` (`{"([^"]+)", \S+?\}`) anchored at the
current position; returns the captured name and the rest of the input. -/
def tryInittabMatch : List Char → Option (String × List Char)
  | '\x7b' :: '"' :: rest =>
    let nm := rest.takeWhile (· ≠ '"')
    if nm = [] then none
    else
      match rest.drop nm.length with
      | '"' :: ',' :: ' ' :: r2 =>
        let t := r2.takeWhile (fun c => ¬ pyIsSpace c ∧ c ≠ '\x7d')
        if t = [] then none
        else
          match r2.drop t.length with
          | '\x7d' :: r3 => some (String.mk nm, r3)
          | _ => none
      | _ => none
  | _ => none

/-- Fueled worker for `INITTAB_RE.finditer`: scan left to right, emitting each
non-overlapping match. -/
def scanInittabAux : Nat → List Char → List String
  | 0, _ => []
  | _ + 1, [] => []
  | fuel + 1, c :: rest =>
    match tryInittabMatch (c :: rest) with
    | some (nm, r3) => nm :: scanInittabAux fuel r3
    | none => scanInittabAux fuel rest

/-- All captures of `INITTAB_RE.finditer` over a text segment. -/
def scanInittab (cs : List Char) : List String := scanInittabAux cs.length cs

/-! ## The regen pipeline -/

/-- Error causes that abort a release's processing in `regen` (unhandled
Python exceptions). -/
inductive RegenErr where
  | inittabIndex
  | mnameIndex
  | badVersion
  | futureVersion
deriving DecidableEq

/-- One entry of the release's `Lib` directory as seen by `glob("*")`:
its name and, for the `plat-`/`lib-` support directories, the names of the
entries inside together with a directory flag. -/
structure LibTop where
  name : String
  children : List (String × Bool)

/-- The library-directory scan of `regen` (the loop over `(base_path / "Lib").glob("*")`):
support directories contribute their subdirectory names (except nested
`lib-` ones) and the stems of contained `.py` files; any other entry
contributes its first dot-segment unless it is a known non-module entry. -/
def libScanEntry (e : LibTop) : List String :=
  if pyStartsWith e.name "plat-" ∨ pyStartsWith e.name "lib-" then
    concatAll (e.children.map (fun c =>
      if c.2 ∧ ¬ pyStartsWith c.1 "lib-" then [c.1]
      else if pyEndsWith c.1 ".py" then [withSuffixEmpty c.1]
      else []))
  else
    let nm := withSuffixEmpty e.name
    let nm := ((pySplitStr "." nm).headD nm)
    if nm = "__pycache__" ∨ nm = "site-packages" ∨ nm = "test" then [] else [nm]

/-- The `.m_name` adjustment of the native scan: when the matched text starts
with `.m_name`, take the piece after the first `=` (Python raises `IndexError`
when there is none). -/
def mNameAdjust (s0 : String) : Except RegenErr String :=
  if pyStartsWith s0 ".m_name" then
    match pySplitStr "=" s0 with
    | _ :: second :: _ => Except.ok (pyStripStr second)
    | _ => Except.error RegenErr.mnameIndex
  else Except.ok s0

/-- Resolution of a matched native-source record into a module name
(lines 163-174 of `fetch.py`): a quoted literal is unquoted; otherwise four
fixed filenames map to their stems, two fixed filenames drop the part from
`module` on, and any other file is skipped with a diagnostic (`ok none`). -/
def resolveModuleName (fn s0 : String) : Except RegenErr (Option String) :=
  match mNameAdjust s0 with
  | Except.error e => Except.error e
  | Except.ok s =>
    if pyStartsWith s "\"" ∧ pyEndsWith s "\"" then Except.ok (some (pyStripQuote s))
    else if fn = "_warnings.c" ∨ fn = "_sre.c" ∨ fn = "pyexpat.c" ∨ fn = "_bsddb.c" then
      Except.ok (some (withSuffixEmpty fn))
    else if fn = "socketmodule.c" ∨ fn = "posixmodule.c" then
      Except.ok (some ((pySplitStr "module" fn).headD fn))
    else Except.ok none

/-- The `or` of the two searches on one C file:
`MODULE_DEF_RE.search(data) or PY2_INITMODULE_RE.search(data)`. -/
def fileMatchGroup (data : List Char) : Option (List Char) :=
  match searchFirst matchModuleDefAt data with
  | some g => some g
  | none => searchFirst matchPy2At data

/-- Processing of one native C source file: search both patterns, strip
comments from the capture, strip whitespace, and resolve the module name. -/
def nativeName (pr : String × List Char) : Except RegenErr (Option String) :=
  match fileMatchGroup pr.2 with
  | none => Except.ok none
  | some g => resolveModuleName pr.1 (pyStripStr (String.mk (commentSub g)))

/-- Names contributed by one native C source file (used to state that each
file contributes at most one name). -/
def fileNames (fn : String) (data : List Char) : List String :=
  match nativeName (fn, data) with
  | Except.ok (some n) => [n]
  | _ => []

/-- Tail of the inittab table-start marker (everything after its first
character). -/
def inittabMarkerTail : List Char := "PyImport_Inittab[] = \x7b".toList

/-- The table-start marker `"_PyImport_Inittab[] = {"`. -/
def inittabMarker : List Char := '_' :: inittabMarkerTail

/-- The platform init-table scan of one `config.c` text:
`path.read_text().split("_PyImport_Inittab[] = {")[1]` followed by
`INITTAB_RE.finditer` and the exclusion of `"__main__"`.  The `[1]` raises
`IndexError` when the marker is absent. -/
def inittabNames (text : List Char) : Except RegenErr (List String) :=
  match pySplit '_' inittabMarkerTail text with
  | _ :: seg :: _ => Except.ok ((scanInittab seg).filter (fun n => n ≠ "__main__"))
  | _ => Except.error RegenErr.inittabIndex

/-- Sequencing of a fallible step over a list, stopping at the first error
(the behaviour of a Python `for` loop whose body may raise). -/
def exceptMapM {α β : Type} (f : α → Except RegenErr β) : List α → Except RegenErr (List β)
  | [] => Except.ok []
  | x :: xs =>
    match f x with
    | Except.error e => Except.error e
    | Except.ok y =>
      match exceptMapM f xs with
      | Except.error e => Except.error e
      | Except.ok ys => Except.ok (y :: ys)

/-- The filesystem contents that one run of `regen` consumes for a release:
the parsed build script, the `Lib` entries, the C files of the three native
directories (name and text, in traversal order), and the texts of the existing
platform `config.c` files. -/
structure RegenInput where
  script : Node
  libEntries : List LibTop
  nativeFiles : List (String × List Char)
  configTexts : List (List Char)

/-- The full name-accumulation of `regen` (lines 128-195): extension names
from the visitor, library names, native-scan names, inittab names, and the
version-gated bootstrap aliases, in code order. -/
def regenNames (version : String) (inp : RegenInput) : Except RegenErr (List String) :=
  match exceptMapM nativeName inp.nativeFiles with
  | Except.error e => Except.error e
  | Except.ok natsOpt =>
    match exceptMapM inittabNames inp.configTexts with
    | Except.error e => Except.error e
    | Except.ok inits =>
      match versionTuple version with
      | none => Except.error RegenErr.badVersion
      | some t =>
        Except.ok (collectNode inp.script
          ++ concatAll (inp.libEntries.map libScanEntry)
          ++ natsOpt.filterMap id
          ++ concatAll inits
          ++ (if pyTupleLt t [3, 3] then [] else ["_frozen_importlib"])
          ++ (if pyTupleLt t [3, 5] then [] else ["_frozen_importlib_external"]))

/-- The set that `regen` both writes (via `write_tmpl(..., set(names))`) and
returns (`return set(names)`). -/
def regen (version : String) (inp : RegenInput) : Except RegenErr (Finset String) :=
  match regenNames version inp with
  | Except.error e => Except.error e
  | Except.ok l => Except.ok l.toFinset

/-- The name collection serialized by `write_tmpl`: `sorted(data)` for the
given set. -/
def write_tmpl (data : Finset String) : List String :=
  data.sort (· ≤ ·)

/-- Result of a full `regen_all` run: the per-release written sets in
processing order, the two major-version aggregates, and the combined set
written to the third aggregate file. -/
structure AllResult where
  perRelease : List (String × Finset String)
  all2 : Finset String
  all3 : Finset String
  combined : Finset String
deriving DecidableEq

/-- Union of a list of sets, as accumulated by `regen_all`. -/
def unionAll (l : List (Finset String)) : Finset String :=
  l.foldr (fun a b => a ∪ b) ∅

/-- Worker of `regen_all`: process the remaining versions, threading the two
aggregate sets and the written per-release tables. -/
def regenAllGo (env : String → RegenInput) :
    List String → Finset String → Finset String → List (String × Finset String) →
    Except RegenErr AllResult
  | [], a2, a3, acc => Except.ok ⟨acc.reverse, a2, a3, a2 ∪ a3⟩
  | v :: vs, a2, a3, acc =>
    match regen v (env v) with
    | Except.error e => Except.error e
    | Except.ok names =>
      if pyStartsWith v "2" then regenAllGo env vs (a2 ∪ names) a3 ((v, names) :: acc)
      else if pyStartsWith v "3" then regenAllGo env vs a2 (a3 ∪ names) ((v, names) :: acc)
      else Except.error RegenErr.futureVersion

/-- The `regen_all` entry point over an abstract per-release filesystem. -/
def regen_all (env : String → RegenInput) : Except RegenErr AllResult :=
  regenAllGo env releaseVersions ∅ ∅ []

/-! ## The archive fetch / cache logic of regen -/

/-- External blocking processes that `regen` may spawn. -/
inductive Cmd where
  | wget (url : String)
  | tar (archive : String)
  | lib2to3 (outDir : String) (script : String)
deriving DecidableEq

/-- Outcome of the fetch prefix of `regen` (lines 94-127): the subprocess
calls performed, in order, and the selected build-script path. -/
structure FetchResult where
  commands : List Cmd
  setupPath : String
deriving DecidableEq

/-- The archive base name: `RELEASES[version].split("/")[-1]`. -/
def archiveName (url : String) : String :=
  (pySplitStr "/" url).getLastD ""

/-- The cache directory for a release:
`Path(".cache", RELEASES[version].split("/")[-1].rsplit(".", 1)[0])`. -/
def basePath (url : String) : String :=
  ".cache/" ++ rsplitBeforeLastDot (archiveName url)

/-- The fetch prefix of `regen`: when the cache directory is absent, download
and unpack (plus the syntax migration for legacy releases) and pick the
script path; when it exists, spawn nothing and pick the previously migrated
path for legacy releases.  `none` models the `KeyError` on an unknown
version. -/
def regenFetch (version : String) (baseExists : Bool) : Option FetchResult :=
  match RELEASES.lookup version with
  | none => none
  | some url =>
    let base := basePath url
    if baseExists then
      if pyStartsWith version "2" then some ⟨[], base ++ "/fixed/setup.py"⟩
      else some ⟨[], base ++ "/setup.py"⟩
    else
      let dl : List Cmd := [Cmd.wget url, Cmd.tar (archiveName url)]
      if pyStartsWith version "2" then
        some ⟨dl ++ [Cmd.lib2to3 (base ++ "/fixed") (base ++ "/setup.py")],
              base ++ "/fixed/setup.py"⟩
      else some ⟨dl, base ++ "/setup.py"⟩

/-! ## try_parse -/

/-- Worker of `try_parse`: try each remaining grammar version in order,
remembering the first error seen; when all fail, fail with that first error
(`none` models the final bare `Exception` when no version was attempted). -/
def try_parse_go {M E : Type} (parse : String → Except E M) :
    List String → Option E → Except (Option E) M
  | [], acc => Except.error acc
  | v :: vs, acc =>
    match parse v with
    | Except.ok m => Except.ok m
    | Except.error e =>
      try_parse_go parse vs (match acc with | none => some e | some e0 => some e0)

/-- Model of `try_parse`: `known` is `cst.KNOWN_PYTHON_VERSION_STRINGS`
(ordered oldest to newest); the code iterates it reversed (`[::-1]`),
i.e. newest to oldest. -/
def try_parse {M E : Type} (parse : String → Except E M) (known : List String) :
    Except (Option E) M :=
  try_parse_go parse known.reverse none

/-! ## Helper lemmas -/

theorem try_parse_go_all_fail {M E : Type} (parse : String → Except E M) :
    ∀ (l : List String) (e0 : E),
      (∀ u ∈ l, ∃ e, parse u = Except.error e) →
      try_parse_go parse l (some e0) = Except.error (some e0) := by
  intro l
  induction l with
  | nil => intro e0 _; rfl
  | cons v vs ih =>
    intro e0 h
    obtain ⟨e, he⟩ := h v (List.mem_cons_self v vs)
    simp only [try_parse_go, he]
    exact ih e0 (fun u hu => h u (List.mem_cons_of_mem v hu))

theorem try_parse_go_first {M E : Type} (parse : String → Except E M) :
    ∀ (pre : List String) (v : String) (post : List String) (m : M) (acc : Option E),
      (∀ u ∈ pre, ∃ e, parse u = Except.error e) → parse v = Except.ok m →
      try_parse_go parse (pre ++ v :: post) acc = Except.ok m := by
  intro pre
  induction pre with
  | nil => intro v post m acc _ hv; simp only [List.nil_append, try_parse_go, hv]
  | cons u pre ih =>
    intro v post m acc h hv
    obtain ⟨e, he⟩ := h u (List.mem_cons_self u pre)
    simp only [List.cons_append, try_parse_go, he]
    exact ih v post m _ (fun w hw => h w (List.mem_cons_of_mem u hw)) hv

/-! ## Claim theorems -/

/-- C3: `try_parse` tries the known grammar versions newest-first (the known
list reversed), returns the first successful parse (so a snippet valid only
under an older version succeeds via fallback), and when every version fails it
raises the error captured from the very first (newest) attempted version. -/
theorem try_parse_fallback_and_first_error {M E : Type} (parse : String → Except E M)
    (known : List String) :
    (∀ (pre : List String) (v : String) (post : List String) (m : M),
        known.reverse = pre ++ v :: post →
        (∀ u ∈ pre, ∃ e, parse u = Except.error e) → parse v = Except.ok m →
        try_parse parse known = Except.ok m)
  ∧ (∀ (v0 : String) (rest : List String) (e0 : E),
        known.reverse = v0 :: rest → parse v0 = Except.error e0 →
        (∀ u ∈ known, ∃ e, parse u = Except.error e) →
        try_parse parse known = Except.error (some e0)) := by
  constructor
  · intro pre v post m hrev hpre hv
    unfold try_parse
    rw [hrev]
    exact try_parse_go_first parse pre v post m none hpre hv
  · intro v0 rest e0 hrev hv0 hall
    unfold try_parse
    rw [hrev]
    simp only [try_parse_go, hv0]
    refine try_parse_go_all_fail parse rest e0 (fun u hu => hall u ?_)
    rw [← List.mem_reverse, hrev]
    exact List.mem_cons_of_mem v0 hu

/-- Concrete parser table for the C3 witness: only the older version "3.0"
accepts. -/
def parseW : String → Except Nat Nat :=
  fun v => if v = "3.0" then Except.ok 7 else Except.error 1

/-- Witness for C3: with known versions `["3.0", "3.8"]` (oldest to newest),
the newest attempt fails and `try_parse` falls back to the older version. -/
theorem try_parse_fallback_witness : try_parse parseW ["3.0", "3.8"] = Except.ok 7 := by
  refine (try_parse_fallback_and_first_error parseW ["3.0", "3.8"]).1
    ["3.8"] "3.0" [] 7 rfl ?_ rfl
  intro u hu
  rcases List.mem_singleton.mp hu with rfl
  exact ⟨1, rfl⟩

/-- C4: a call node whose callee is `Extension` or `addMacExtension` and whose
first argument is a string literal records exactly that literal's evaluated
value, ignoring all further arguments (which contribute only via their own
subtree traversal). -/
theorem visit_call_records_first_string_arg (f raw : String) (rest : List Node)
    (hf : f = "Extension" ∨ f = "addMacExtension") :
    visitCallNames (Node.call (Node.name f) (Node.simpleString raw :: rest))
      = [evaluatedValue raw]
  ∧ collectNode (Node.call (Node.name f) (Node.simpleString raw :: rest))
      = evaluatedValue raw :: collectList rest := by
  have h1 : visitCallNames (Node.call (Node.name f) (Node.simpleString raw :: rest))
      = [evaluatedValue raw] := by
    simp only [visitCallNames, if_pos hf]
  refine ⟨h1, ?_⟩
  simp [collectNode, collectList, h1]

/-- Witness for C4: `Extension("_socket", srcs)` records `"_socket"`. -/
theorem visit_call_witness :
    collectNode (Node.call (Node.name "Extension")
      [Node.simpleString "\"_socket\"", Node.name "srcs"]) = ["_socket"] := by
  have h := visit_call_records_first_string_arg "Extension" "\"_socket\""
    [Node.name "srcs"] (Or.inl rfl)
  rw [h.2]
  rfl

/-- C5: an assignment whose sole target is `CARBON_EXTS` and whose value is a
literal list records the evaluated value of every string-literal element,
skipping non-string elements; in particular
`CARBON_EXTS = ["_Qt", "_Carbon"]` records both names. -/
theorem visit_assign_records_list_strings (elems : List Node) :
    visitAssignNames (Node.assign [Node.name "CARBON_EXTS"] (Node.listNode elems))
      = elems.filterMap (fun e => match e with
          | Node.simpleString raw => some (evaluatedValue raw)
          | _ => none)
  ∧ collectNode (Node.assign [Node.name "CARBON_EXTS"] (Node.listNode elems))
      = elems.filterMap (fun e => match e with
          | Node.simpleString raw => some (evaluatedValue raw)
          | _ => none) ++ collectList elems
  ∧ collectNode (Node.assign [Node.name "CARBON_EXTS"]
        (Node.listNode [Node.simpleString "\"_Qt\"", Node.name "x",
          Node.simpleString "\"_Carbon\""]))
      = ["_Qt", "_Carbon"] := by
  have h1 : visitAssignNames (Node.assign [Node.name "CARBON_EXTS"] (Node.listNode elems))
      = elems.filterMap (fun e => match e with
          | Node.simpleString raw => some (evaluatedValue raw)
          | _ => none) := by
    simp [visitAssignNames]
  refine ⟨h1, ?_, by rfl⟩
  simp [collectNode, collectList, h1]

/-- C7: with the cache directory already present, the fetch prefix of `regen`
spawns no subprocess at all (no download, no extraction, no syntax migration),
and for a legacy major-version-2 release it selects the previously migrated
script path under the fixed subdirectory. -/
theorem regen_cached_no_commands (version url : String)
    (h : RELEASES.lookup version = some url) :
    regenFetch version true
      = some ⟨[], basePath url
          ++ (if pyStartsWith version "2" then "/fixed/setup.py" else "/setup.py")⟩ := by
  unfold regenFetch
  rw [h]
  cases hsw : pyStartsWith version "2" <;> simp [hsw]

/-- Witness for C7 at the cached legacy release "2.7". -/
theorem regen_cached_witness :
    regenFetch "2.7" true
      = some ⟨[], basePath "https://www.python.org/ftp/python/2.7.18/Python-2.7.18.tgz"
          ++ (if pyStartsWith "2.7" "2" then "/fixed/setup.py" else "/setup.py")⟩ :=
  regen_cached_no_commands "2.7" _ rfl

/-- C8: when the matched native-source record does not resolve to a quoted
string literal, the collector applies the four-entry filename override table
(mapping each file to its stem), or strips the `module` suffix for the two
special filenames, and otherwise skips the file with a diagnostic
(`Except.ok none`) without aborting the run. -/
theorem collector_fallback (fn s0 s1 : String)
    (hadj : mNameAdjust s0 = Except.ok s1)
    (hq : ¬ (pyStartsWith s1 "\"" = true ∧ pyEndsWith s1 "\"" = true)) :
    (fn = "_warnings.c" → resolveModuleName fn s0 = Except.ok (some "_warnings"))
  ∧ (fn = "_sre.c" → resolveModuleName fn s0 = Except.ok (some "_sre"))
  ∧ (fn = "pyexpat.c" → resolveModuleName fn s0 = Except.ok (some "pyexpat"))
  ∧ (fn = "_bsddb.c" → resolveModuleName fn s0 = Except.ok (some "_bsddb"))
  ∧ (fn = "socketmodule.c" → resolveModuleName fn s0 = Except.ok (some "socket"))
  ∧ (fn = "posixmodule.c" → resolveModuleName fn s0 = Except.ok (some "posix"))
  ∧ (fn ∉ ["_warnings.c", "_sre.c", "pyexpat.c", "_bsddb.c",
            "socketmodule.c", "posixmodule.c"] →
       resolveModuleName fn s0 = Except.ok none) := by
  have hres : resolveModuleName fn s0
      = (if fn = "_warnings.c" ∨ fn = "_sre.c" ∨ fn = "pyexpat.c" ∨ fn = "_bsddb.c" then
           Except.ok (some (withSuffixEmpty fn))
         else if fn = "socketmodule.c" ∨ fn = "posixmodule.c" then
           Except.ok (some ((pySplitStr "module" fn).headD fn))
         else Except.ok none) := by
    unfold resolveModuleName
    simp only [hadj]
    rw [if_neg hq]
  refine ⟨?_, ?_, ?_, ?_, ?_, ?_, ?_⟩
  · rintro rfl; rw [hres, if_pos (Or.inl rfl)]; rfl
  · rintro rfl; rw [hres, if_pos (Or.inr (Or.inl rfl))]; rfl
  · rintro rfl; rw [hres, if_pos (Or.inr (Or.inr (Or.inl rfl)))]; rfl
  · rintro rfl; rw [hres, if_pos (Or.inr (Or.inr (Or.inr rfl)))]; rfl
  · rintro rfl; rw [hres, if_neg (by decide), if_pos (Or.inl rfl)]; rfl
  · rintro rfl; rw [hres, if_neg (by decide), if_pos (Or.inr rfl)]; rfl
  · intro hmem
    simp only [List.mem_cons, List.not_mem_nil, or_false, not_or] at hmem
    obtain ⟨h1, h2, h3, h4, h5, h6⟩ := hmem
    rw [hres, if_neg (by simp [h1, h2, h3, h4]), if_neg (by simp [h5, h6])]

/-- Witness for C8: with the unquoted record text `NULL`, the file `_sre.c`
resolves through the override table and an unknown file is skipped. -/
theorem collector_fallback_witness :
    resolveModuleName "_sre.c" "NULL" = Except.ok (some "_sre")
  ∧ resolveModuleName "foo.c" "NULL" = Except.ok none := by
  have h1 := collector_fallback "_sre.c" "NULL" "NULL" rfl (by decide)
  have h2 := collector_fallback "foo.c" "NULL" "NULL" rfl (by decide)
  exact ⟨h1.2.1 rfl, h2.2.2.2.2.2.2 (by decide)⟩

theorem searchFirst_of_first {α : Type} (f : List Char → Option α) :
    ∀ (cs : List Char) (i : Nat) (g : α),
      (∀ j, j < i → f (cs.drop j) = none) → f (cs.drop i) = some g →
      searchFirst f cs = some g := by
  intro cs
  induction cs with
  | nil =>
    intro i g h1 h2
    cases i with
    | zero => simpa [searchFirst] using h2
    | succ k =>
      have h0 := h1 0 (Nat.succ_pos k)
      simp only [List.drop_nil] at h0 h2
      rw [h0] at h2
      cases h2
  | cons c cs ih =>
    intro i g h1 h2
    cases i with
    | zero =>
      simp only [List.drop_zero] at h2
      simp [searchFirst, h2]
    | succ k =>
      have h0 := h1 0 (Nat.succ_pos k)
      simp only [List.drop_zero] at h0
      simp only [searchFirst, h0]
      refine ih k g (fun j hj => ?_) (by simpa using h2)
      have := h1 (j + 1) (Nat.succ_lt_succ hj)
      simpa using this

/-- C10: the native scan records at most one name per C file; only the first
match of the module-definition pattern is used; the legacy initialization
pattern is consulted only when the module-definition pattern matches nowhere
in the file; and the overall search returns the earliest-position match,
ignoring all later ones. -/
theorem native_scan_first_match_only (fn : String) (data : List Char) :
    (fileNames fn data).length ≤ 1
  ∧ (∀ g, searchFirst matchModuleDefAt data = some g → fileMatchGroup data = some g)
  ∧ (searchFirst matchModuleDefAt data = none →
       fileMatchGroup data = searchFirst matchPy2At data)
  ∧ (∀ (i : Nat) (g : List Char),
       (∀ j, j < i → matchModuleDefAt (data.drop j) = none) →
       matchModuleDefAt (data.drop i) = some g →
       searchFirst matchModuleDefAt data = some g) := by
  refine ⟨?_, ?_, ?_, ?_⟩
  · unfold fileNames
    cases h : nativeName (fn, data) with
    | error e => simp
    | ok o => cases o <;> simp
  · intro g h
    unfold fileMatchGroup
    rw [h]
  · intro h
    unfold fileMatchGroup
    rw [h]
  · intro i g h1 h2
    exact searchFirst_of_first matchModuleDefAt data i g h1 h2

/-- Concrete text with two module-definition records, for the C10 witness. -/
def twoDefsText : List Char :=
  "PyModuleDef m = \x7bA, \"one\"\x7d PyModuleDef n = \x7bA, \"two\"\x7d".toList

/-- Witness for C10: on a file containing two module-definition records only
the first one's name is recorded. -/
theorem native_scan_first_match_witness :
    fileNames "x.c" twoDefsText = ["one"]
  ∧ (fileNames "x.c" twoDefsText).length ≤ 1
  ∧ searchFirst matchModuleDefAt twoDefsText = some "\"one\"".toList := by
  refine ⟨by rfl, (native_scan_first_match_only "x.c" twoDefsText).1, ?_⟩
  exact (native_scan_first_match_only "x.c" twoDefsText).2.2.2 0 ("\"one\"".toList)
    (by intro j hj; cases hj) (by rfl)

theorem pySplitAux_no_occurrence (s : Char) (ss : List Char) :
    ∀ (fuel : Nat) (l : List Char), l.length ≤ fuel →
      (¬ ∃ a b, l = a ++ (s :: ss) ++ b) → pySplitAux s ss fuel l = [l] := by
  intro fuel
  induction fuel with
  | zero =>
    intro l hl _
    cases l with
    | nil => rfl
    | cons c cs => simp at hl
  | succ fuel ih =>
    intro l hl h
    cases l with
    | nil => rfl
    | cons c cs =>
      have hpre : ¬ ((s :: ss).isPrefixOf (c :: cs) = true) := by
        intro hp
        obtain ⟨t, ht⟩ := List.isPrefixOf_iff_prefix.mp hp
        exact h ⟨[], t, by simp [← ht]⟩
      have ih' := ih cs (by simpa using Nat.le_of_succ_le_succ hl)
        (fun hx => h (by obtain ⟨a, b, hab⟩ := hx; exact ⟨c :: a, b, by simp [hab]⟩))
      simp only [pySplitAux, if_neg hpre, ih']

theorem pySplit_no_occurrence (s : Char) (ss : List Char) (l : List Char)
    (h : ¬ ∃ a b, l = a ++ (s :: ss) ++ b) : pySplit s ss l = [l] :=
  pySplitAux_no_occurrence s ss l.length l (Nat.le_refl _) h

theorem exceptMapM_no_ok {α β : Type} (f : α → Except RegenErr β) (x : α) (e : RegenErr) :
    ∀ (xs : List α), x ∈ xs → f x = Except.error e →
      ∀ ys, exceptMapM f xs ≠ Except.ok ys := by
  intro xs
  induction xs with
  | nil => intro hx; cases hx
  | cons y xs ih =>
    intro hx hfx ys h
    rcases List.mem_cons.mp hx with rfl | hx2
    · rw [exceptMapM, hfx] at h
      cases h
    · rw [exceptMapM] at h
      cases hfy : f y with
      | error e2 => rw [hfy] at h; cases h
      | ok z =>
        rw [hfy] at h
        cases hm : exceptMapM f xs with
        | error e2 => rw [hm] at h; cases h
        | ok zs => exact ih hx2 hfx zs hm

/-- C9: the platform init-table scan presupposes its table-start marker: for a
`config.c` text that does not contain `"_PyImport_Inittab[] = {"`, indexing
`split(...)[1]` fails (`IndexError`), and a release whose scanned config texts
include such a file aborts instead of yielding a name set. -/
theorem inittab_marker_required (version : String) (inp : RegenInput) (text : List Char)
    (hmem : text ∈ inp.configTexts)
    (hno : ¬ ∃ a b, text = a ++ inittabMarker ++ b) :
    inittabNames text = Except.error RegenErr.inittabIndex
  ∧ ∀ s, regen version inp ≠ Except.ok s := by
  have hsplit : pySplit '_' inittabMarkerTail text = [text] :=
    pySplit_no_occurrence '_' inittabMarkerTail text hno
  have herr : inittabNames text = Except.error RegenErr.inittabIndex := by
    unfold inittabNames
    rw [hsplit]
  refine ⟨herr, fun s h => ?_⟩
  unfold regen at h
  cases hn : regenNames version inp with
  | error e => rw [hn] at h; cases h
  | ok l =>
    unfold regenNames at hn
    cases hnat : exceptMapM nativeName inp.nativeFiles with
    | error e => rw [hnat] at hn; cases hn
    | ok nats =>
      rw [hnat] at hn
      cases hini : exceptMapM inittabNames inp.configTexts with
      | error e => rw [hini] at hn; cases hn
      | ok inits =>
        exact exceptMapM_no_ok inittabNames text RegenErr.inittabIndex
          inp.configTexts hmem herr inits hini

/-- Witness for C9 at a concrete marker-free config text. -/
theorem inittab_marker_required_witness :
    inittabNames "no table here".toList = Except.error RegenErr.inittabIndex
  ∧ ∀ s, regen "3.0" ⟨Node.other [], [], [], ["no table here".toList]⟩ ≠ Except.ok s := by
  refine inittab_marker_required "3.0" ⟨Node.other [], [], [], ["no table here".toList]⟩
    ("no table here".toList) (by simp) ?_
  rintro ⟨a, b, hab⟩
  have hlen := congrArg List.length hab
  simp [inittabMarker, inittabMarkerTail] at hlen
  omega

/-- C6: whenever a release's version parses to a numeric tuple at or above
`(3, 3)` (not lexicographically less), the generated set contains
`_frozen_importlib`, and at or above `(3, 5)` also
`_frozen_importlib_external`, regardless of every scanned input. -/
theorem version_gated_aliases (version : String) (inp : RegenInput) (s : Finset String)
    (t : List Nat) (hok : regen version inp = Except.ok s)
    (ht : versionTuple version = some t) :
    (pyTupleLt t [3, 3] = false → "_frozen_importlib" ∈ s)
  ∧ (pyTupleLt t [3, 5] = false → "_frozen_importlib_external" ∈ s) := by
  unfold regen at hok
  cases hn : regenNames version inp with
  | error e => rw [hn] at hok; cases hok
  | ok l =>
    simp only [hn] at hok
    injection hok with hs
    unfold regenNames at hn
    cases hnat : exceptMapM nativeName inp.nativeFiles with
    | error e => rw [hnat] at hn; cases hn
    | ok nats =>
      rw [hnat] at hn
      cases hini : exceptMapM inittabNames inp.configTexts with
      | error e => rw [hini] at hn; cases hn
      | ok inits =>
        rw [hini, ht] at hn
        injection hn with hl
        constructor
        · intro h33
          rw [← hs, List.mem_toFinset, ← hl]
          simp [List.mem_append, h33]
        · intro h35
          rw [← hs, List.mem_toFinset, ← hl]
          simp [List.mem_append, h35]

/-- The trivial per-release filesystem used by concrete witnesses. -/
def inp0 : RegenInput := ⟨Node.other [], [], [], []⟩

/-- The set generated for version "3.10" over the trivial filesystem. -/
def s310 : Finset String := {"_frozen_importlib", "_frozen_importlib_external"}

/-- Witness for C6 at version "3.10": numerically above both thresholds (and
both aliases are generated) even though as a string "3.10" sorts below "3.3"
and "3.5". -/
theorem version_gated_aliases_witness :
    pyStrLt "3.10" "3.3" = true ∧ pyStrLt "3.10" "3.5" = true
  ∧ pyTupleLt [3, 10] [3, 3] = false ∧ pyTupleLt [3, 10] [3, 5] = false
  ∧ "_frozen_importlib" ∈ s310 ∧ "_frozen_importlib_external" ∈ s310 := by
  have h := version_gated_aliases "3.10" inp0 s310 [3, 10] (by rfl) (by rfl)
  exact ⟨by decide, by decide, by decide, by decide, h.1 (by decide), h.2 (by decide)⟩

theorem tryInittabMatch_name_ne (l : List Char) (nm : String) (r : List Char)
    (h : tryInittabMatch l = some (nm, r)) : nm ≠ "" := by
  rw [tryInittabMatch.eq_def] at h
  split at h
  · simp only at h
    split at h
    · cases h
    · rename_i hne
      split at h
      · split at h
        · cases h
        · split at h
          · injection h with h2
            have hm := congrArg Prod.fst h2
            simp only at hm
            intro hcon
            rw [hcon] at hm
            apply hne
            have := congrArg String.toList hm
            simpa using this.symm
          · cases h
      · cases h
  · cases h

theorem scanInittabAux_ne :
    ∀ (fuel : Nat) (cs : List Char) (n : String), n ∈ scanInittabAux fuel cs → n ≠ "" := by
  intro fuel
  induction fuel with
  | zero => intro cs n hn; cases hn
  | succ fuel ih =>
    intro cs n hn
    cases cs with
    | nil => cases hn
    | cons c rest =>
      rw [scanInittabAux] at hn
      cases htm : tryInittabMatch (c :: rest) with
      | none => rw [htm] at hn; exact ih rest n hn
      | some pr =>
        obtain ⟨nm, r3⟩ := pr
        rw [htm] at hn
        rcases List.mem_cons.mp hn with rfl | hn2
        · exact tryInittabMatch_name_ne (c :: rest) n r3 htm
        · exact ih r3 n hn2

theorem inittabNames_names (text : List Char) (l : List String)
    (h : inittabNames text = Except.ok l) :
    ∀ n ∈ l, n ≠ "" ∧ n ≠ "__main__" := by
  unfold inittabNames at h
  split at h
  · injection h with h2
    subst h2
    intro n hn
    rcases List.mem_filter.mp hn with ⟨hscan, hmain⟩
    refine ⟨scanInittabAux_ne _ _ n hscan, ?_⟩
    simpa using hmain
  · cases h

theorem exceptMapM_mem {α β : Type} (f : α → Except RegenErr β) :
    ∀ (xs : List α) (ys : List β), exceptMapM f xs = Except.ok ys →
      ∀ y ∈ ys, ∃ x ∈ xs, f x = Except.ok y := by
  intro xs
  induction xs with
  | nil =>
    intro ys h y hy
    rw [exceptMapM] at h
    injection h with h2
    subst h2
    cases hy
  | cons x xs ih =>
    intro ys h y hy
    rw [exceptMapM] at h
    cases hfx : f x with
    | error e => rw [hfx] at h; cases h
    | ok z =>
      rw [hfx] at h
      cases hm : exceptMapM f xs with
      | error e => rw [hm] at h; cases h
      | ok zs =>
        rw [hm] at h
        injection h with h2
        subst h2
        rcases List.mem_cons.mp hy with rfl | hy2
        · exact ⟨x, List.mem_cons_self x xs, hfx⟩
        · obtain ⟨x2, hx2, hfx2⟩ := ih zs hm y hy2
          exact ⟨x2, List.mem_cons_of_mem x hx2, hfx2⟩

theorem concatAll_mem (L : List (List String)) (n : String) (h : n ∈ concatAll L) :
    ∃ l ∈ L, n ∈ l := by
  induction L with
  | nil => cases h
  | cons l L ih =>
    simp only [concatAll, List.foldr_cons] at h
    rcases List.mem_append.mp h with h1 | h2
    · exact ⟨l, List.mem_cons_self l L, h1⟩
    · obtain ⟨l2, hl2, hn⟩ := ih h2
      exact ⟨l2, List.mem_cons_of_mem l hl2, hn⟩

/-- C1, amended: the written name collection is always lexicographically
sorted and duplicate-free; moreover, provided the extractor, library scan and
native scan contribute no empty and no `__main__` name, the written collection
contains neither (the inittab scan filters `__main__` and only yields
non-empty captures, and the alias names are fixed non-placeholder strings).
The code itself does not filter the other scans: see the counterexample. -/
theorem table_sorted_dedup_filtered (version : String) (inp : RegenInput) (s : Finset String)
    (hok : regen version inp = Except.ok s)
    (hsrc : ∀ n : String,
      (n ∈ collectNode inp.script ∨
       n ∈ concatAll (inp.libEntries.map libScanEntry) ∨
       ∃ pr ∈ inp.nativeFiles, nativeName pr = Except.ok (some n)) →
      n ≠ "" ∧ n ≠ "__main__") :
    List.Sorted (· ≤ ·) (write_tmpl s) ∧ (write_tmpl s).Nodup
  ∧ "" ∉ write_tmpl s ∧ "__main__" ∉ write_tmpl s := by
  have hkey : ∀ n ∈ write_tmpl s, n ≠ "" ∧ n ≠ "__main__" := by
    intro n hn
    rw [write_tmpl, Finset.mem_sort] at hn
    unfold regen at hok
    cases hN : regenNames version inp with
    | error e => rw [hN] at hok; cases hok
    | ok l =>
      simp only [hN] at hok
      injection hok with hs
      rw [← hs, List.mem_toFinset] at hn
      unfold regenNames at hN
      cases hnat : exceptMapM nativeName inp.nativeFiles with
      | error e => rw [hnat] at hN; cases hN
      | ok nats =>
        rw [hnat] at hN
        cases hini : exceptMapM inittabNames inp.configTexts with
        | error e => rw [hini] at hN; cases hN
        | ok inits =>
          rw [hini] at hN
          cases ht : versionTuple version with
          | none => rw [ht] at hN; cases hN
          | some t =>
            rw [ht] at hN
            injection hN with hl
            rw [← hl] at hn
            rcases List.mem_append.mp hn with hn5 | hali2
            · rcases List.mem_append.mp hn5 with hn4 | hali1
              · rcases List.mem_append.mp hn4 with hn3 | hinit
                · rcases List.mem_append.mp hn3 with hn2 | hnatm
                  · rcases List.mem_append.mp hn2 with hext | hlib
                    · exact hsrc n (Or.inl hext)
                    · exact hsrc n (Or.inr (Or.inl hlib))
                  · rcases List.mem_filterMap.mp hnatm with ⟨o, ho, hid⟩
                    cases o with
                    | none => cases hid
                    | some z =>
                      have hz : z = n := by simpa using hid
                      subst hz
                      obtain ⟨pr, hpr, hfo⟩ :=
                        exceptMapM_mem nativeName inp.nativeFiles nats hnat (some z) ho
                      exact hsrc z (Or.inr (Or.inr ⟨pr, hpr, hfo⟩))
                · obtain ⟨li, hli, hni⟩ := concatAll_mem inits n hinit
                  obtain ⟨text, _, hok2⟩ :=
                    exceptMapM_mem inittabNames inp.configTexts inits hini li hli
                  exact inittabNames_names text li hok2 n hni
              · cases h33 : pyTupleLt t [3, 3] with
                | true => rw [h33] at hali1; cases hali1
                | false =>
                  rw [h33] at hali1
                  rcases List.mem_singleton.mp hali1 with rfl
                  exact ⟨by decide, by decide⟩
            · cases h35 : pyTupleLt t [3, 5] with
              | true => rw [h35] at hali2; cases hali2
              | false =>
                rw [h35] at hali2
                rcases List.mem_singleton.mp hali2 with rfl
                exact ⟨by decide, by decide⟩
  refine ⟨Finset.sort_sorted _ _, Finset.sort_nodup _ _, ?_, ?_⟩
  · intro hmem; exact (hkey "" hmem).1 rfl
  · intro hmem; exact (hkey "__main__" hmem).2 rfl

/-- A release filesystem whose library directory contains `__main__.py`. -/
def inpMain : RegenInput := ⟨Node.other [], [⟨"__main__.py", []⟩], [], []⟩

/-- Counterexample to C1 as stated: a `Lib` entry named `__main__.py` passes
the library scan's exclusion list, so the written per-release table contains
the placeholder name `__main__` (only the inittab scan filters it). -/
theorem table_contains_placeholder :
    regen "3.0" inpMain = Except.ok {"__main__"}
  ∧ "__main__" ∈ write_tmpl {"__main__"} := by
  refine ⟨by rfl, ?_⟩
  rw [write_tmpl, Finset.mem_sort]
  decide

/-- Witness for the amended C1 over the trivial filesystem. -/
theorem table_sorted_dedup_filtered_witness :
    List.Sorted (· ≤ ·) (write_tmpl (∅ : Finset String))
  ∧ (write_tmpl (∅ : Finset String)).Nodup
  ∧ "" ∉ write_tmpl (∅ : Finset String)
  ∧ "__main__" ∉ write_tmpl (∅ : Finset String) := by
  refine table_sorted_dedup_filtered "3.0" inp0 ∅ (by rfl) ?_
  intro n hn
  rcases hn with h | h | ⟨pr, hpr, _⟩
  · simp [inp0, collectNode, collectList] at h
  · simp [inp0, concatAll] at h
  · simp [inp0] at hpr

theorem unionAll_cons (x : Finset String) (l : List (Finset String)) :
    unionAll (x :: l) = x ∪ unionAll l := rfl

theorem regenAllGo_spec (env : String → RegenInput) :
    ∀ (vs : List String) (a2 a3 : Finset String)
      (acc : List (String × Finset String)) (r : AllResult),
      (∀ v ∈ vs, ¬ (pyStartsWith v "2" = true ∧ pyStartsWith v "3" = true)) →
      regenAllGo env vs a2 a3 acc = Except.ok r →
      ∃ ents, r.perRelease = acc.reverse ++ ents
        ∧ r.all2 = a2 ∪ unionAll ((ents.filter (fun p => pyStartsWith p.1 "2")).map Prod.snd)
        ∧ r.all3 = a3 ∪ unionAll ((ents.filter (fun p => pyStartsWith p.1 "3")).map Prod.snd)
        ∧ r.combined = r.all2 ∪ r.all3 := by
  intro vs
  induction vs with
  | nil =>
    intro a2 a3 acc r _ h
    rw [regenAllGo] at h
    injection h with h2
    subst h2
    exact ⟨[], by simp, by simp [unionAll], by simp [unionAll], rfl⟩
  | cons v vs ih =>
    intro a2 a3 acc r hvs h
    rw [regenAllGo] at h
    cases hreg : regen v (env v) with
    | error e => rw [hreg] at h; cases h
    | ok names =>
      rw [hreg] at h
      cases hsw2 : pyStartsWith v "2" with
      | true =>
        rw [hsw2] at h
        simp only [if_pos rfl] at h
        obtain ⟨ents, hper, h2, h3, hc⟩ :=
          ih (a2 ∪ names) a3 ((v, names) :: acc) r
            (fun u hu => hvs u (List.mem_cons_of_mem v hu)) h
        have hsw3 : pyStartsWith v "3" = false := by
          cases hq : pyStartsWith v "3" with
          | true => exact absurd ⟨hsw2, hq⟩ (hvs v (List.mem_cons_self v vs))
          | false => rfl
        refine ⟨(v, names) :: ents, ?_, ?_, ?_, hc⟩
        · rw [hper, List.reverse_cons, List.append_assoc]
          rfl
        · rw [h2]
          simp [List.filter_cons, hsw2, unionAll_cons, Finset.union_assoc]
        · rw [h3]
          simp [List.filter_cons, hsw3]
      | false =>
        rw [hsw2] at h
        simp only [Bool.false_eq_true, if_neg] at h
        cases hsw3 : pyStartsWith v "3" with
        | true =>
          rw [hsw3] at h
          simp only [if_pos rfl] at h
          obtain ⟨ents, hper, h2, h3, hc⟩ :=
            ih a2 (a3 ∪ names) ((v, names) :: acc) r
              (fun u hu => hvs u (List.mem_cons_of_mem v hu)) h
          refine ⟨(v, names) :: ents, ?_, ?_, ?_, hc⟩
          · rw [hper, List.reverse_cons, List.append_assoc]
            rfl
          · rw [h2]
            simp [List.filter_cons, hsw2]
          · rw [h3]
            simp [List.filter_cons, hsw3, unionAll_cons, Finset.union_assoc]
        | false =>
          rw [hsw3] at h
          simp only [Bool.false_eq_true, if_neg] at h
          cases h

/-- C2: after a successful full run, the major-version-2 aggregate equals the
union of the per-release sets written for releases whose label starts with
"2", the major-version-3 aggregate likewise for "3", the combined table is
their union, and the collection written per release denotes exactly the set
that `regen` returned into the aggregation. -/
theorem aggregates_are_unions (env : String → RegenInput) (r : AllResult)
    (h : regen_all env = Except.ok r) :
    r.all2 = unionAll ((r.perRelease.filter (fun p => pyStartsWith p.1 "2")).map Prod.snd)
  ∧ r.all3 = unionAll ((r.perRelease.filter (fun p => pyStartsWith p.1 "3")).map Prod.snd)
  ∧ r.combined = r.all2 ∪ r.all3
  ∧ ∀ p ∈ r.perRelease, (write_tmpl p.2).toFinset = p.2 := by
  have hvs : ∀ v ∈ releaseVersions,
      ¬ (pyStartsWith v "2" = true ∧ pyStartsWith v "3" = true) := by decide
  obtain ⟨ents, hper, h2, h3, hc⟩ :=
    regenAllGo_spec env releaseVersions ∅ ∅ [] r hvs h
  simp only [List.reverse_nil, List.nil_append] at hper
  subst hper
  refine ⟨by simpa using h2, by simpa using h3, hc, ?_⟩
  intro p _
  exact Finset.sort_toFinset _ p.2

/-- All-empty filesystem for every release, for the C2 witness. -/
def env0 : String → RegenInput := fun _ => inp0

/-- The set generated for releases at or above (3, 3) over the trivial
filesystem. -/
def fiSet : Finset String := {"_frozen_importlib"}

/-- The full result of `regen_all` over the trivial filesystem. -/
def r0 : AllResult :=
  ⟨[("2.3", ∅), ("2.4", ∅), ("2.5", ∅), ("2.6", ∅), ("2.7", ∅),
    ("3.0", ∅), ("3.1", ∅), ("3.2", ∅),
    ("3.3", fiSet), ("3.4", fiSet),
    ("3.5", s310), ("3.6", s310), ("3.7", s310), ("3.8", s310),
    ("3.9", s310), ("3.10", s310)],
   ∅, s310, s310⟩

/-- Witness for C2 on a concrete full run over the trivial filesystem. -/
theorem aggregates_are_unions_witness :
    r0.all2 = unionAll ((r0.perRelease.filter (fun p => pyStartsWith p.1 "2")).map Prod.snd)
  ∧ r0.all3 = unionAll ((r0.perRelease.filter (fun p => pyStartsWith p.1 "3")).map Prod.snd)
  ∧ r0.combined = r0.all2 ∪ r0.all3
  ∧ ∀ p ∈ r0.perRelease, (write_tmpl p.2).toFinset = p.2 :=
  aggregates_are_unions env0 r0 (by rfl)
